import Mathlib

/-!
Shallow embedding of `src/alarm.py` (gpu-idle-alarm): the idle-tracking and
alert-dispatch engine.  Pure fragments of the Python code become Lean
functions; the stateful poll loop becomes explicit state passing; exceptions
become `Except`; the NVML backend and the SMTP transport become explicit
parameters.  Machine floats (the wall-clock delta) are modelled as exact
rationals together with Python's banker's rounding.
-/

namespace GpuIdleAlarm

/-- One device's entry in the snapshot built by `get_utilization_rates`
(`{'index': i, 'name': ..., 'util': ...}` in the source). -/
structure DeviceSample where
  index : ℤ
  name : String
  util : ℤ
  deriving Repr, DecidableEq

/-- Python's `round` on an exact rational: round half to even (banker's
rounding), as applied to `real_interval` in the source.  Stated in integer
arithmetic on the reduced numerator and denominator so that it evaluates
inside the kernel: with `f = ⌊q⌋` the fractional part is
`(q.num - f * q.den) / q.den`, so comparing it with `1/2` is comparing
`2 * (q.num - f * q.den)` with `q.den`.  `pyRound_eq_fract` below proves
this equal to the textbook fractional-part formulation. -/
def pyRound (q : ℚ) : ℤ :=
  let f : ℤ := ⌊q⌋
  let num2 : ℤ := 2 * (q.num - f * q.den)
  if num2 < (q.den : ℤ) then f
  else if (q.den : ℤ) < num2 then f + 1
  else if f % 2 = 0 then f else f + 1

/-- The NVML backend seen by `get_utilization_rates`: device count, per-index
name and utilization, and which calls raise `NVMLError`. -/
structure NvmlBackend where
  initFails : Bool
  count : ℤ
  name : ℤ → String
  util : ℤ → ℤ
  queryFails : ℤ → Bool

/-- The body of the `for i in devices` loop in `get_utilization_rates`:
skip indexes `>= count`, abort with `none` (the swallowed `NVMLError`,
which makes the function return `None`) when a per-device query raises,
otherwise collect the sample. -/
def collect_samples (b : NvmlBackend) : List ℤ → Option (List DeviceSample)
  | [] => some []
  | i :: rest =>
    if b.count ≤ i then collect_samples b rest
    else if b.queryFails i then none
    else (collect_samples b rest).map (⟨i, b.name i, b.util i⟩ :: ·)

/-- `get_utilization_rates(devices)` from the source: on any `NVMLError`
the `except` clause logs and the function falls through, returning `None`
(modelled as `none`); otherwise the ordered list of samples. `devices = none`
models the `auto` filter (`range(count)`). -/
def get_utilization_rates (b : NvmlBackend) (devices : Option (List ℤ)) :
    Option (List DeviceSample) :=
  if b.initFails then none
  else
    let ds := devices.getD ((List.range b.count.toNat).map Int.ofNat)
    collect_samples b ds

/-- The engine's mutable state: the parallel `idle_durations` and
`device_names` lists of `main`. -/
structure AlarmState where
  idle_durations : List ℤ
  device_names : List String
  deriving Repr, DecidableEq

/-- `reset_history(info_seq)` from the source. -/
def reset_history (info_seq : List DeviceSample) : AlarmState :=
  { idle_durations := List.replicate info_seq.length 0
    device_names := info_seq.map DeviceSample.name }

/-- The `device_changed` expression of `main`: lengths differ, or some
positional name differs under `zip` (which truncates to the shorter list). -/
def device_changed (device_names : List String) (rates : List DeviceSample) : Bool :=
  (rates.length != device_names.length) ||
    (device_names.zip (rates.map DeviceSample.name)).any (fun p => p.1 != p.2)

/-- The `# update timers` loop of `main`, as an in-place indexed update:
for each position `i` of the snapshot, reset to `0` when
`rate >= threshold`, else add the rounded elapsed interval. -/
def update_timers (threshold rnd : ℤ) (idle : List ℤ) (rates : List DeviceSample) :
    List ℤ :=
  rates.enum.foldl
    (fun acc p =>
      if threshold ≤ p.2.util then acc.set p.1 0
      else acc.set p.1 (acc.getD p.1 0 + rnd))
    idle

/-- The `idle_gpus` comprehension of `main`: positions whose accumulated idle
duration has reached `duration * 60` seconds. -/
def idle_gpus (duration : ℤ) (idle : List ℤ) : List ℕ :=
  (idle.enum.filter (fun p => duration * 60 ≤ p.2)).map Prod.fst

/-- The `# reset` loop over `idle_gpus` in `main`: zero every triggered
position. -/
def clear_triggered (idle : List ℤ) (idxs : List ℕ) : List ℤ :=
  idxs.foldl (fun acc i => acc.set i 0) idle

/-- The informational lines printed through `verbose` in the source,
abstracted as events (the exact text, with its wall-clock timestamps, is
not modelled). -/
inductive LogEvent where
  | timestampLine
  | noGpusLine
  | summaryLine (index : ℤ) (name : String) (util : ℤ) (idleFor : Option ℤ)
  | deviceChangedLine
  | foundIdleLine (indexes : List ℤ)
  | sendingLine
  | sentLine (recipient : String)
  deriving Repr, DecidableEq

/-- `verbose(...)`: informational output is produced only when quiet mode is
off. -/
def verbose (quiet : Bool) (evs : List LogEvent) : List LogEvent :=
  if quiet then [] else evs

/-- `print_summary(info_seq)` from the source: a timestamp, a notice when no
devices are present, and one line per device showing utilization and — when
the device counts as idle (`util < threshold`) — its accumulated idle time. -/
def print_summary (threshold : ℤ) (idle : List ℤ) (rates : List DeviceSample) :
    List LogEvent :=
  LogEvent.timestampLine ::
    ((if rates.length = 0 then [LogEvent.noGpusLine] else []) ++
      rates.enum.map (fun p =>
        LogEvent.summaryLine p.2.index p.2.name p.2.util
          (if threshold ≤ p.2.util then none else some (idle.getD p.1 0))))

/-- The configuration `main` runs with: CLI options and the loaded SMTP
config entries the engine reads (`duration`, `threshold`, `quiet`,
`account`, `to`). -/
structure AlarmConfig where
  duration : ℤ
  threshold : ℤ
  quiet : Bool
  account : String
  toAddr : Option String

/-- Lines 75-76 of the source: `if not config_dict.get('to'):
config_dict['to'] = config_dict['account']` — an absent or falsy (empty)
`to` entry falls back to the account address. -/
def effective_to (cfg : AlarmConfig) : String :=
  match cfg.toAddr with
  | none => cfg.account
  | some s => if s = "" then cfg.account else s

/-- One iteration's external inputs: the sampler's result (`none` models
`get_utilization_rates` returning `None` after a swallowed `NVMLError`),
the real elapsed wall-clock seconds since the previous poll, and whether
the SMTP dispatch calls succeed this cycle. -/
structure CycleInput where
  rates : Option (List DeviceSample)
  elapsed : ℚ
  dispatchOk : Bool

/-- How an iteration of the `while True` loop can abort: `typeError` is the
uncaught `TypeError` from `len(None)` when sampling returned `None`;
`dispatchFailure` is an uncaught SMTP exception.  Only `KeyboardInterrupt`
is caught in the source, so both abort the loop. -/
inductive LoopExit where
  | typeError
  | dispatchFailure
  deriving Repr, DecidableEq

/-- One iteration of the `while True` loop of `main` (lines 111-166).
`Except.error` means an uncaught exception escapes the loop; the carried
`AlarmState` is the engine state at the moment the exception is raised.
On success the result carries the new state and the list of triggered
positions (the alert episode, empty when nothing triggered). -/
def poll_cycle (cfg : AlarmConfig) (st : AlarmState) (inp : CycleInput) :
    Except (LoopExit × AlarmState) (AlarmState × List ℕ) × List LogEvent :=
  match inp.rates with
  | none => (.error (.typeError, st), [])
  | some rates =>
    if device_changed st.device_names rates then
      let st' := reset_history rates
      (.ok (st', []),
        verbose cfg.quiet
          (LogEvent.deviceChangedLine :: print_summary cfg.threshold st'.idle_durations rates))
    else
      let idle1 := update_timers cfg.threshold (pyRound inp.elapsed) st.idle_durations rates
      let evs1 := verbose cfg.quiet (print_summary cfg.threshold idle1 rates)
      let trig := idle_gpus cfg.duration idle1
      if trig.isEmpty then
        (.ok (⟨idle1, st.device_names⟩, []), evs1)
      else
        let st' : AlarmState := ⟨clear_triggered idle1 trig, st.device_names⟩
        let evs2 := verbose cfg.quiet
          [LogEvent.foundIdleLine (trig.map (fun i => (rates.getD i ⟨0, "", 0⟩).index)), LogEvent.sendingLine]
        if inp.dispatchOk then
          (.ok (st', trig), evs1 ++ evs2 ++ verbose cfg.quiet [LogEvent.sentLine (effective_to cfg)])
        else
          (.error (.dispatchFailure, st'), evs1 ++ evs2)

/-- The engine state an iteration leaves behind, whether it returned
normally or an exception escaped. -/
def stateOf (r : Except (LoopExit × AlarmState) (AlarmState × List ℕ)) : AlarmState :=
  match r with
  | .ok (st, _) => st
  | .error (_, st) => st

/-- Run the loop over a finite list of cycle inputs, collecting each cycle's
episode and all informational output; an escaping exception terminates the
run (no further cycles execute). -/
def run_cycles (cfg : AlarmConfig) :
    AlarmState → List CycleInput → AlarmState × List (List ℕ) × List LogEvent
  | st, [] => (st, [], [])
  | st, inp :: rest =>
    match poll_cycle cfg st inp with
    | (.ok (st', ep), evs) =>
      let r := run_cycles cfg st' rest
      (r.1, ep :: r.2.1, evs ++ r.2.2)
    | (.error (_, st'), evs) => (st', [], evs)

instance {ε α : Type} [DecidableEq ε] [DecidableEq α] : DecidableEq (Except ε α) := fun a b =>
  match a, b with
  | .ok x, .ok y => if h : x = y then .isTrue (by rw [h]) else .isFalse (by simp [h])
  | .error x, .error y => if h : x = y then .isTrue (by rw [h]) else .isFalse (by simp [h])
  | .ok _, .error _ => .isFalse (by simp)
  | .error _, .ok _ => .isFalse (by simp)

/-- The `MonitoredSet` invariant of the spec: the idle-duration sequence and
the recorded device-name sequence always have the same length. -/
def length_inv (st : AlarmState) : Prop :=
  st.idle_durations.length = st.device_names.length

/-- The single-device projection of one loop iteration, keeping only the
idle timer and whether an alert episode fired: accumulate-or-reset against
the utilization threshold, then trigger-and-clear against the duration
threshold.  `run_cycles_single_device` below proves this is exactly what
`poll_cycle` does on a one-device topology. -/
def step1 (threshold duration util r s : ℤ) : ℤ × Bool :=
  let s1 := if threshold ≤ util then 0 else s + r
  if duration * 60 ≤ s1 then (0, true) else (s1, false)

/-- Iterate `step1` over the (already rounded) elapsed intervals of
successive polls, collecting the per-cycle trigger flags. -/
def run1 (threshold duration util : ℤ) : ℤ → List ℤ → ℤ × List Bool
  | s, [] => (s, [])
  | s, r :: rest =>
    let p := step1 threshold duration util r s
    let q := run1 threshold duration util p.1 rest
    (q.1, p.2 :: q.2)


theorem pyRound_eq_fract (q : ℚ) :
    pyRound q =
      if q - ⌊q⌋ < 1/2 then ⌊q⌋
      else if 1/2 < q - ⌊q⌋ then ⌊q⌋ + 1
      else if ⌊q⌋ % 2 = 0 then ⌊q⌋ else ⌊q⌋ + 1 := by
  have hden : (0:ℚ) < (q.den:ℚ) := by exact_mod_cast q.den_pos
  have hmul : q * (q.den:ℚ) = (q.num:ℚ) := Rat.mul_den_eq_num q
  have hfract : q - ⌊q⌋ = ((q.num - ⌊q⌋ * q.den : ℤ) : ℚ) / ((q.den : ℚ)) := by
    rw [eq_div_iff (ne_of_gt hden), sub_mul, hmul]
    push_cast
    ring
  have h1 : (2 * (q.num - ⌊q⌋ * q.den) < (q.den:ℤ)) ↔ (q - ⌊q⌋ < 1/2) := by
    rw [hfract, div_lt_div_iff₀ hden two_pos]
    push_cast
    constructor
    · intro h
      have h' : (2:ℚ) * ((q.num:ℚ) - (⌊q⌋:ℚ) * (q.den:ℚ)) < (q.den:ℚ) := by exact_mod_cast h
      linarith
    · intro h
      have h' : (2:ℚ) * ((q.num:ℚ) - (⌊q⌋:ℚ) * (q.den:ℚ)) < (q.den:ℚ) := by linarith
      exact_mod_cast h'
  have h2 : ((q.den:ℤ) < 2 * (q.num - ⌊q⌋ * q.den)) ↔ ((1:ℚ)/2 < q - ⌊q⌋) := by
    rw [hfract, div_lt_div_iff₀ two_pos hden]
    push_cast
    constructor
    · intro h
      have h' : (q.den:ℚ) < (2:ℚ) * ((q.num:ℚ) - (⌊q⌋:ℚ) * (q.den:ℚ)) := by exact_mod_cast h
      linarith
    · intro h
      have h' : (q.den:ℚ) < (2:ℚ) * ((q.num:ℚ) - (⌊q⌋:ℚ) * (q.den:ℚ)) := by linarith
      exact_mod_cast h'
  simp only [pyRound, h1, h2]

theorem pyRound_intCast (n : ℤ) : pyRound (n : ℚ) = n := by
  rw [pyRound_eq_fract]
  simp [Int.floor_intCast]

theorem update_timers_length (θ r : ℤ) (idle : List ℤ) (rates : List DeviceSample) :
    (update_timers θ r idle rates).length = idle.length := by
  unfold update_timers
  generalize (List.enum rates) = ps
  induction ps generalizing idle with
  | nil => rfl
  | cons p ps ih =>
    simp only [List.foldl_cons]
    rw [ih]
    split <;> simp

theorem clear_triggered_length (idle : List ℤ) (idxs : List ℕ) :
    (clear_triggered idle idxs).length = idle.length := by
  unfold clear_triggered
  induction idxs generalizing idle with
  | nil => rfl
  | cons j rest ih =>
    simp only [List.foldl_cons]
    rw [ih]
    simp

theorem getD_set_self (l : List ℤ) (i : ℕ) (v : ℤ) (h : i < l.length) :
    (l.set i v).getD i 0 = v := by
  simp [List.getD, List.getElem?_set_eq_of_lt v h]

theorem getD_set_ne (l : List ℤ) (i j : ℕ) (v : ℤ) (h : i ≠ j) :
    (l.set i v).getD j 0 = l.getD j 0 := by
  simp [List.getD, List.getElem?_set_ne h]

end GpuIdleAlarm

namespace GpuIdleAlarm

theorem set_append_len (pre : List ℤ) (d v : ℤ) (ds : List ℤ) :
    (pre ++ d :: ds).set pre.length v = pre ++ v :: ds := by
  induction pre with
  | nil => rfl
  | cons a pre ih => simp [List.set, ih]

theorem getD_append_len (pre : List ℤ) (d : ℤ) (ds : List ℤ) :
    (pre ++ d :: ds).getD pre.length 0 = d := by
  induction pre with
  | nil => rfl
  | cons a pre ih => simpa [List.getD] using ih

theorem update_timers_aux (θ r : ℤ) :
    ∀ (rates : List DeviceSample) (pre idle : List ℤ), idle.length = rates.length →
      (List.enumFrom pre.length rates).foldl
        (fun acc p =>
          if θ ≤ p.2.util then acc.set p.1 0
          else acc.set p.1 (acc.getD p.1 0 + r))
        (pre ++ idle)
      = pre ++ List.zipWith (fun d s => if θ ≤ s.util then 0 else d + r) idle rates := by
  intro rates
  induction rates with
  | nil =>
    intro pre idle hlen
    rw [List.length_eq_zero.mp hlen]
    rfl
  | cons s rs ih =>
    intro pre idle hlen
    match idle, hlen with
    | d :: ds, hlen =>
      have hlen' : ds.length = rs.length := by simpa using hlen
      simp only [List.enumFrom, List.foldl_cons]
      have hstep :
          (if θ ≤ s.util then (pre ++ d :: ds).set pre.length 0
           else (pre ++ d :: ds).set pre.length ((pre ++ d :: ds).getD pre.length 0 + r))
          = pre ++ (if θ ≤ s.util then 0 else d + r) :: ds := by
        by_cases hc : θ ≤ s.util
        · rw [if_pos hc, if_pos hc, set_append_len]
        · rw [if_neg hc, if_neg hc, getD_append_len, set_append_len]
      rw [hstep]
      have hpre : (pre ++ [if θ ≤ s.util then 0 else d + r]).length = pre.length + 1 := by
        simp
      have := ih (pre ++ [if θ ≤ s.util then 0 else d + r]) ds hlen'
      rw [hpre] at this
      simpa [List.append_assoc] using this

theorem update_timers_eq_zipWith (θ r : ℤ) (idle : List ℤ) (rates : List DeviceSample)
    (hlen : idle.length = rates.length) :
    update_timers θ r idle rates
      = List.zipWith (fun d s => if θ ≤ s.util then 0 else d + r) idle rates := by
  have := update_timers_aux θ r rates [] idle hlen
  simpa [update_timers, List.enum] using this


theorem zipWith_getD (f : ℤ → DeviceSample → ℤ) (idle : List ℤ) (rates : List DeviceSample)
    (hlen : idle.length = rates.length) (i : ℕ) (hi : i < idle.length) :
    (List.zipWith f idle rates).getD i 0 = f (idle.getD i 0) (rates.getD i ⟨0, "", 0⟩) := by
  have hi2 : i < rates.length := hlen ▸ hi
  have hz : i < (List.zipWith f idle rates).length := by
    simp [List.length_zipWith]
    omega
  rw [List.getD_eq_getElem _ _ hz, List.getD_eq_getElem _ _ hi, List.getD_eq_getElem _ _ hi2,
    List.getElem_zipWith]

theorem mem_idle_gpus (dur : ℤ) (idle : List ℤ) (i : ℕ) :
    i ∈ idle_gpus dur idle ↔ ∃ _h : i < idle.length, dur * 60 ≤ idle.getD i 0 := by
  unfold idle_gpus
  simp only [List.mem_map, List.mem_filter, decide_eq_true_eq]
  constructor
  · rintro ⟨⟨j, x⟩, ⟨hmem, hge⟩, rfl⟩
    rw [List.mk_mem_enum_iff_getElem?] at hmem
    have hj : j < idle.length := (List.getElem?_eq_some_iff.mp hmem).1
    refine ⟨hj, ?_⟩
    have hx : idle.getD j 0 = x := by
      rw [List.getD_eq_getElem?_getD, hmem]
      rfl
    rw [hx]
    exact hge
  · rintro ⟨h, hge⟩
    refine ⟨(i, idle.getD i 0), ⟨?_, hge⟩, rfl⟩
    rw [List.mk_mem_enum_iff_getElem?]
    rw [List.getD_eq_getElem _ _ h]
    simp

theorem clear_triggered_getD (idle : List ℤ) (idxs : List ℕ)
    (hb : ∀ j ∈ idxs, j < idle.length) (i : ℕ) :
    (clear_triggered idle idxs).getD i 0 = if i ∈ idxs then 0 else idle.getD i 0 := by
  induction idxs generalizing idle with
  | nil => simp [clear_triggered]
  | cons j rest ih =>
    have hj : j < idle.length := hb j (List.mem_cons_self j rest)
    have hb' : ∀ x ∈ rest, x < (idle.set j 0).length := by
      intro x hx
      simpa using hb x (List.mem_cons_of_mem j hx)
    have hstep : clear_triggered idle (j :: rest) = clear_triggered (idle.set j 0) rest := rfl
    rw [hstep, ih (idle.set j 0) hb']
    by_cases hir : i ∈ rest
    · rw [if_pos hir, if_pos (List.mem_cons_of_mem j hir)]
    · by_cases hij : i = j
      · subst hij
        rw [if_neg hir, if_pos (List.mem_cons_self i rest), getD_set_self idle i 0 hj]
      · rw [if_neg hir, if_neg (by simp [List.mem_cons, hij, hir]),
          getD_set_ne idle j i 0 (fun hh => hij hh.symm)]

theorem any_zip_ne_iff :
    ∀ (xs ys : List String),
      ((xs.zip ys).any fun p => p.1 != p.2) = true ↔
        ∃ i, ∃ h1 : i < xs.length, ∃ h2 : i < ys.length, xs.get ⟨i, h1⟩ ≠ ys.get ⟨i, h2⟩ := by
  intro xs
  induction xs with
  | nil => intro ys; simp
  | cons x xs ih =>
    intro ys
    match ys with
    | [] => simp
    | y :: ys =>
      simp only [List.zip_cons_cons, List.any_cons, Bool.or_eq_true, bne_iff_ne, ih ys]
      constructor
      · rintro (hne | ⟨i, h1, h2, hne⟩)
        · exact ⟨0, by simp, by simp, hne⟩
        · exact ⟨i + 1, by simpa using h1, by simpa using h2, by simpa using hne⟩
      · rintro ⟨i, h1, h2, hne⟩
        match i with
        | 0 => exact Or.inl (by simpa using hne)
        | i + 1 =>
          exact Or.inr ⟨i, by simpa using h1, by simpa using h2, by simpa using hne⟩


theorem poll_cycle_changed (cfg : AlarmConfig) (st : AlarmState)
    (rates : List DeviceSample) (e : ℚ) (dOk : Bool)
    (hch : device_changed st.device_names rates = true) :
    (poll_cycle cfg st ⟨some rates, e, dOk⟩).1 = .ok (reset_history rates, []) := by
  simp [poll_cycle, hch]

theorem poll_cycle_unchanged (cfg : AlarmConfig) (st : AlarmState)
    (rates : List DeviceSample) (e : ℚ) (dOk : Bool)
    (hch : device_changed st.device_names rates = false) :
    (poll_cycle cfg st ⟨some rates, e, dOk⟩).1 =
      (let idle1 := update_timers cfg.threshold (pyRound e) st.idle_durations rates
       let trig := idle_gpus cfg.duration idle1
       if trig.isEmpty then .ok (⟨idle1, st.device_names⟩, ([] : List ℕ))
       else if dOk then .ok (⟨clear_triggered idle1 trig, st.device_names⟩, trig)
       else .error (.dispatchFailure, ⟨clear_triggered idle1 trig, st.device_names⟩)) := by
  simp only [poll_cycle, hch, Bool.false_eq_true, if_false]
  split
  · rfl
  · split <;> rfl


/-- Claim C1: for a poll cycle with unchanged topology, the idle accumulator
maps position i to 0 when utilization is at or above the threshold
(boundary inclusive on the active side), and to the previous value plus the
rounded elapsed time otherwise; the result has the input's length. -/
theorem c1_idle_accumulator (threshold : ℤ) (e : ℚ) (idle : List ℤ)
    (rates : List DeviceSample) (hlen : idle.length = rates.length) :
    (update_timers threshold (pyRound e) idle rates).length = idle.length ∧
    ∀ i : ℕ, i < idle.length →
      (update_timers threshold (pyRound e) idle rates).getD i 0 =
        if threshold ≤ (rates.getD i ⟨0, "", 0⟩).util then 0
        else idle.getD i 0 + pyRound e := by
  refine ⟨update_timers_length threshold (pyRound e) idle rates, ?_⟩
  intro i hi
  rw [update_timers_eq_zipWith threshold (pyRound e) idle rates hlen,
    zipWith_getD (fun d s => if threshold ≤ s.util then 0 else d + pyRound e)
      idle rates hlen i hi]

/-- Witness for C1 at a concrete input: one idle device, one device exactly
at the threshold (which resets). -/
theorem c1_idle_accumulator_witness :
    ([5, 30] : List ℤ).length = [DeviceSample.mk 0 "A" 5, DeviceSample.mk 1 "B" 20].length ∧
    ((update_timers 20 (pyRound 10) [5, 30] [DeviceSample.mk 0 "A" 5, DeviceSample.mk 1 "B" 20]).length
        = ([5, 30] : List ℤ).length ∧
      ∀ i : ℕ, i < ([5, 30] : List ℤ).length →
        (update_timers 20 (pyRound 10) [5, 30]
            [DeviceSample.mk 0 "A" 5, DeviceSample.mk 1 "B" 20]).getD i 0 =
          if (20:ℤ) ≤ (([DeviceSample.mk 0 "A" 5, DeviceSample.mk 1 "B" 20]).getD i ⟨0, "", 0⟩).util
          then 0 else ([5, 30] : List ℤ).getD i 0 + pyRound 10) :=
  ⟨by decide, c1_idle_accumulator 20 10 [5, 30]
    [DeviceSample.mk 0 "A" 5, DeviceSample.mk 1 "B" 20] (by decide)⟩

/-- Claim C2: a topology change is declared iff the lengths differ or some
positional display name differs (identifiers are never compared); a declared
change resets every timer to 0, re-records the names, and skips both
accumulation and triggering for the cycle, whatever the utilizations are. -/
theorem c2_topology_change (cfg : AlarmConfig) (st : AlarmState)
    (rates : List DeviceSample) (e : ℚ) (dOk : Bool) :
    (device_changed st.device_names rates = true ↔
      rates.length ≠ st.device_names.length ∨
      ∃ i, ∃ h1 : i < st.device_names.length, ∃ h2 : i < rates.length,
        st.device_names.get ⟨i, h1⟩ ≠ (rates.get ⟨i, h2⟩).name) ∧
    (device_changed st.device_names rates = true →
      (poll_cycle cfg st ⟨some rates, e, dOk⟩).1 =
        .ok (⟨List.replicate rates.length 0, rates.map DeviceSample.name⟩, [])) := by
  constructor
  · unfold device_changed
    rw [Bool.or_eq_true, bne_iff_ne, any_zip_ne_iff st.device_names (rates.map DeviceSample.name)]
    constructor
    · rintro (hlen | ⟨i, h1, h2, hne⟩)
      · exact Or.inl hlen
      · refine Or.inr ⟨i, h1, by simpa using h2, ?_⟩
        intro hc
        apply hne
        simpa [List.get_eq_getElem, List.getElem_map] using hc
    · rintro (hlen | ⟨i, h1, h2, hne⟩)
      · exact Or.inl hlen
      · refine Or.inr ⟨i, h1, by simpa using h2, ?_⟩
        intro hc
        apply hne
        simpa [List.get_eq_getElem, List.getElem_map] using hc
  · intro h
    rw [poll_cycle_changed cfg st rates e dOk h]
    rfl

/-- Witness for C2 at a concrete input: same length, one name differs, so a
change is declared and the cycle only reseeds. -/
theorem c2_topology_change_witness :
    (device_changed ["A"] [DeviceSample.mk 7 "B" 99] = true ↔
      ([DeviceSample.mk 7 "B" 99] : List DeviceSample).length ≠ (["A"] : List String).length ∨
      ∃ i, ∃ h1 : i < (["A"] : List String).length,
        ∃ h2 : i < ([DeviceSample.mk 7 "B" 99] : List DeviceSample).length,
          (["A"] : List String).get ⟨i, h1⟩ ≠ (([DeviceSample.mk 7 "B" 99] : List DeviceSample).get ⟨i, h2⟩).name) ∧
    (device_changed ["A"] [DeviceSample.mk 7 "B" 99] = true →
      (poll_cycle ⟨30, 20, false, "acct", none⟩ ⟨[1000], ["A"]⟩
          ⟨some [DeviceSample.mk 7 "B" 99], 10, true⟩).1 =
        .ok (⟨List.replicate 1 0, [DeviceSample.mk 7 "B" 99].map DeviceSample.name⟩, [])) :=
  c2_topology_change ⟨30, 20, false, "acct", none⟩ ⟨[1000], ["A"]⟩ [DeviceSample.mk 7 "B" 99] 10 true


/-- Claim C3: after accumulation, an episode triggers for position i iff the
accumulated idle duration has reached the threshold in seconds; every
triggered position is cleared to 0 in the same cycle before dispatch is
attempted (so also when dispatch fails), and when nothing qualifies no
alert is dispatched and the trigger modifies no timer. -/
theorem c3_episode_trigger (cfg : AlarmConfig) (st : AlarmState)
    (rates : List DeviceSample) (e : ℚ) (dOk : Bool)
    (hch : device_changed st.device_names rates = false) :
    (∀ i : ℕ,
      i ∈ idle_gpus cfg.duration (update_timers cfg.threshold (pyRound e) st.idle_durations rates) ↔
      ∃ _h : i < (update_timers cfg.threshold (pyRound e) st.idle_durations rates).length,
        cfg.duration * 60 ≤
          (update_timers cfg.threshold (pyRound e) st.idle_durations rates).getD i 0) ∧
    stateOf (poll_cycle cfg st ⟨some rates, e, dOk⟩).1 =
      ⟨clear_triggered (update_timers cfg.threshold (pyRound e) st.idle_durations rates)
          (idle_gpus cfg.duration (update_timers cfg.threshold (pyRound e) st.idle_durations rates)),
        st.device_names⟩ ∧
    (∀ i ∈ idle_gpus cfg.duration (update_timers cfg.threshold (pyRound e) st.idle_durations rates),
      (clear_triggered (update_timers cfg.threshold (pyRound e) st.idle_durations rates)
          (idle_gpus cfg.duration (update_timers cfg.threshold (pyRound e) st.idle_durations rates))).getD i 0 = 0) ∧
    (∀ i : ℕ,
      i ∉ idle_gpus cfg.duration (update_timers cfg.threshold (pyRound e) st.idle_durations rates) →
      (clear_triggered (update_timers cfg.threshold (pyRound e) st.idle_durations rates)
          (idle_gpus cfg.duration (update_timers cfg.threshold (pyRound e) st.idle_durations rates))).getD i 0 =
        (update_timers cfg.threshold (pyRound e) st.idle_durations rates).getD i 0) ∧
    (idle_gpus cfg.duration (update_timers cfg.threshold (pyRound e) st.idle_durations rates) = [] →
      (poll_cycle cfg st ⟨some rates, e, dOk⟩).1 =
        .ok (⟨update_timers cfg.threshold (pyRound e) st.idle_durations rates, st.device_names⟩, [])) ∧
    (dOk = true →
      (poll_cycle cfg st ⟨some rates, e, dOk⟩).1 =
        .ok (⟨clear_triggered (update_timers cfg.threshold (pyRound e) st.idle_durations rates)
            (idle_gpus cfg.duration (update_timers cfg.threshold (pyRound e) st.idle_durations rates)),
          st.device_names⟩,
          idle_gpus cfg.duration (update_timers cfg.threshold (pyRound e) st.idle_durations rates))) := by
  set idle1 := update_timers cfg.threshold (pyRound e) st.idle_durations rates with hidle1
  set trig := idle_gpus cfg.duration idle1 with htrig
  have hb : ∀ j ∈ trig, j < idle1.length := by
    intro j hj
    obtain ⟨h, _⟩ := (mem_idle_gpus cfg.duration idle1 j).mp hj
    exact h
  refine ⟨fun i => mem_idle_gpus cfg.duration idle1 i, ?_, ?_, ?_, ?_, ?_⟩
  · rw [poll_cycle_unchanged cfg st rates e dOk hch]
    by_cases hemp : trig.isEmpty
    · simp only [← htrig, ← hidle1, hemp, if_true]
      rw [List.isEmpty_iff.mp hemp]
      rfl
    · simp only [← htrig, ← hidle1, hemp, if_false]
      cases dOk <;> rfl
  · intro i hi
    rw [clear_triggered_getD idle1 trig hb i, if_pos hi]
  · intro i hi
    rw [clear_triggered_getD idle1 trig hb i, if_neg hi]
  · intro hnil
    rw [poll_cycle_unchanged cfg st rates e dOk hch]
    simp only [← htrig, ← hidle1, hnil]
    rfl
  · intro hd
    rw [poll_cycle_unchanged cfg st rates e dOk hch, hd]
    by_cases hemp : trig.isEmpty
    · simp only [← htrig, ← hidle1, hemp, if_true]
      rw [List.isEmpty_iff.mp hemp]
      rfl
    · simp [← htrig, ← hidle1, hemp]

/-- Witness for C3 at a concrete input: one device just past the threshold
(triggers and is cleared) and one below it (kept). -/
theorem c3_episode_trigger_witness :
    device_changed ["A", "B"] [DeviceSample.mk 0 "A" 5, DeviceSample.mk 1 "B" 5] = false ∧
    (∀ i : ℕ,
      i ∈ idle_gpus 1 (update_timers 20 (pyRound 10) [50, 20]
            [DeviceSample.mk 0 "A" 5, DeviceSample.mk 1 "B" 5]) ↔
      ∃ _h : i < (update_timers 20 (pyRound 10) [50, 20]
            [DeviceSample.mk 0 "A" 5, DeviceSample.mk 1 "B" 5]).length,
        (1:ℤ) * 60 ≤
          (update_timers 20 (pyRound 10) [50, 20]
            [DeviceSample.mk 0 "A" 5, DeviceSample.mk 1 "B" 5]).getD i 0) ∧
    stateOf (poll_cycle ⟨1, 20, false, "acct", none⟩ ⟨[50, 20], ["A", "B"]⟩
        ⟨some [DeviceSample.mk 0 "A" 5, DeviceSample.mk 1 "B" 5], 10, true⟩).1 =
      ⟨clear_triggered (update_timers 20 (pyRound 10) [50, 20]
            [DeviceSample.mk 0 "A" 5, DeviceSample.mk 1 "B" 5])
          (idle_gpus 1 (update_timers 20 (pyRound 10) [50, 20]
            [DeviceSample.mk 0 "A" 5, DeviceSample.mk 1 "B" 5])),
        ["A", "B"]⟩ ∧
    (∀ i ∈ idle_gpus 1 (update_timers 20 (pyRound 10) [50, 20]
          [DeviceSample.mk 0 "A" 5, DeviceSample.mk 1 "B" 5]),
      (clear_triggered (update_timers 20 (pyRound 10) [50, 20]
            [DeviceSample.mk 0 "A" 5, DeviceSample.mk 1 "B" 5])
          (idle_gpus 1 (update_timers 20 (pyRound 10) [50, 20]
            [DeviceSample.mk 0 "A" 5, DeviceSample.mk 1 "B" 5]))).getD i 0 = 0) ∧
    (∀ i : ℕ,
      i ∉ idle_gpus 1 (update_timers 20 (pyRound 10) [50, 20]
            [DeviceSample.mk 0 "A" 5, DeviceSample.mk 1 "B" 5]) →
      (clear_triggered (update_timers 20 (pyRound 10) [50, 20]
            [DeviceSample.mk 0 "A" 5, DeviceSample.mk 1 "B" 5])
          (idle_gpus 1 (update_timers 20 (pyRound 10) [50, 20]
            [DeviceSample.mk 0 "A" 5, DeviceSample.mk 1 "B" 5]))).getD i 0 =
        (update_timers 20 (pyRound 10) [50, 20]
            [DeviceSample.mk 0 "A" 5, DeviceSample.mk 1 "B" 5]).getD i 0) ∧
    (idle_gpus 1 (update_timers 20 (pyRound 10) [50, 20]
          [DeviceSample.mk 0 "A" 5, DeviceSample.mk 1 "B" 5]) = [] →
      (poll_cycle ⟨1, 20, false, "acct", none⟩ ⟨[50, 20], ["A", "B"]⟩
          ⟨some [DeviceSample.mk 0 "A" 5, DeviceSample.mk 1 "B" 5], 10, true⟩).1 =
        .ok (⟨update_timers 20 (pyRound 10) [50, 20]
            [DeviceSample.mk 0 "A" 5, DeviceSample.mk 1 "B" 5], ["A", "B"]⟩, [])) ∧
    (true = true →
      (poll_cycle ⟨1, 20, false, "acct", none⟩ ⟨[50, 20], ["A", "B"]⟩
          ⟨some [DeviceSample.mk 0 "A" 5, DeviceSample.mk 1 "B" 5], 10, true⟩).1 =
        .ok (⟨clear_triggered (update_timers 20 (pyRound 10) [50, 20]
              [DeviceSample.mk 0 "A" 5, DeviceSample.mk 1 "B" 5])
            (idle_gpus 1 (update_timers 20 (pyRound 10) [50, 20]
              [DeviceSample.mk 0 "A" 5, DeviceSample.mk 1 "B" 5])),
          ["A", "B"]⟩,
          idle_gpus 1 (update_timers 20 (pyRound 10) [50, 20]
            [DeviceSample.mk 0 "A" 5, DeviceSample.mk 1 "B" 5]))) :=
  ⟨by decide, c3_episode_trigger ⟨1, 20, false, "acct", none⟩ ⟨[50, 20], ["A", "B"]⟩
    [DeviceSample.mk 0 "A" 5, DeviceSample.mk 1 "B" 5] 10 true (by decide)⟩

/-- Claim C8: the invariant len(idleSeconds) = len(deviceNames) holds after
the initial seeding and is preserved by every poll cycle (topology reset,
accumulation, and episode trigger included). -/
theorem c8_length_invariant (cfg : AlarmConfig) (st : AlarmState) (inp : CycleInput)
    (rates : List DeviceSample) (hinv : length_inv st) :
    length_inv (reset_history rates) ∧ length_inv (stateOf (poll_cycle cfg st inp).1) := by
  constructor
  · unfold length_inv reset_history
    simp
  · match inp with
    | ⟨none, e, dOk⟩ =>
      simpa [poll_cycle, stateOf] using hinv
    | ⟨some rates', e, dOk⟩ =>
      by_cases hch : device_changed st.device_names rates' = true
      · rw [poll_cycle_changed cfg st rates' e dOk hch]
        unfold stateOf length_inv reset_history
        simp
      · rw [poll_cycle_unchanged cfg st rates' e dOk (by simpa using hch)]
        have hup := update_timers_length cfg.threshold (pyRound e) st.idle_durations rates'
        set idle1 := update_timers cfg.threshold (pyRound e) st.idle_durations rates' with hidle1
        set trig := idle_gpus cfg.duration idle1 with htrig
        by_cases hemp : trig.isEmpty
        · simp only [← htrig, ← hidle1, hemp, if_true]
          unfold stateOf length_inv
          simpa [hup] using hinv
        · simp only [← htrig, ← hidle1, hemp, if_false]
          cases dOk
          · unfold stateOf length_inv
            simpa [clear_triggered_length, hup] using hinv
          · unfold stateOf length_inv
            simpa [clear_triggered_length, hup] using hinv

/-- Witness for C8 at a concrete input. -/
theorem c8_length_invariant_witness :
    length_inv ⟨[50, 20], ["A", "B"]⟩ ∧
    (length_inv (reset_history [DeviceSample.mk 0 "A" 5]) ∧
      length_inv (stateOf (poll_cycle ⟨1, 20, false, "acct", none⟩ ⟨[50, 20], ["A", "B"]⟩
        ⟨some [DeviceSample.mk 0 "A" 5, DeviceSample.mk 1 "B" 5], 10, true⟩).1)) :=
  ⟨rfl,
    c8_length_invariant ⟨1, 20, false, "acct", none⟩ ⟨[50, 20], ["A", "B"]⟩
      ⟨some [DeviceSample.mk 0 "A" 5, DeviceSample.mk 1 "B" 5], 10, true⟩
      [DeviceSample.mk 0 "A" 5] rfl⟩


theorem run_cycles_cons_error (cfg : AlarmConfig) (st : AlarmState) (inp : CycleInput)
    (rest : List CycleInput) (ex : LoopExit) (st' : AlarmState)
    (hx : (poll_cycle cfg st inp).1 = .error (ex, st')) :
    (run_cycles cfg st (inp :: rest)).1 = st' ∧
    (run_cycles cfg st (inp :: rest)).2.1 = [] := by
  rcases hpc : poll_cycle cfg st inp with ⟨res, evs⟩
  rw [hpc] at hx
  simp only at hx
  subst hx
  simp [run_cycles, hpc]

/-- Claim C6 (code evidence): `get_utilization_rates` does return a
well-formed empty list when no devices are present, but when the backing
enumeration raises `NVMLError` (at `nvmlInit` or at a per-device query) it
returns `None` rather than a list, and the engine then dies on `len(None)`
with an uncaught `TypeError` instead of treating the cycle as a degenerate
snapshot. -/
theorem c6_sampling_failure_returns_none :
    get_utilization_rates ⟨false, 0, fun _ => "", fun _ => 0, fun _ => false⟩ none = some [] ∧
    get_utilization_rates ⟨true, 2, fun _ => "G", fun _ => 0, fun _ => false⟩ none = none ∧
    get_utilization_rates ⟨false, 1, fun _ => "G", fun _ => 0, fun _ => true⟩ none = none ∧
    (poll_cycle ⟨30, 20, false, "acct", none⟩ ⟨[], []⟩ ⟨none, 10, true⟩).1 =
      .error (.typeError, ⟨[], []⟩) :=
  ⟨rfl, rfl, rfl, rfl⟩

/-- Claim C5 counterexample: at a concrete input where a device has just
crossed the idle threshold and the SMTP dispatch fails, the loop iteration
ends in an escaping `dispatchFailure` exception — the poll cycle does not
continue, and the loop exits without an interrupt. -/
theorem c5_dispatch_failure_counterexample :
    (poll_cycle ⟨1, 20, false, "acct", none⟩ ⟨[50], ["A"]⟩
        ⟨some [DeviceSample.mk 0 "A" 5], 10, false⟩).1 =
      .error (.dispatchFailure, ⟨[0], ["A"]⟩) ∧
    (run_cycles ⟨1, 20, false, "acct", none⟩ ⟨[50], ["A"]⟩
        [⟨some [DeviceSample.mk 0 "A" 5], 10, false⟩,
         ⟨some [DeviceSample.mk 0 "A" 5], 10, true⟩]).2.1 = [] := by
  decide

/-- Claim C5 (amended): a notification delivery failure does not alter the
already-reset idle timers — the state carried out of the failing cycle has
every triggered position cleared — but it is an uncaught exception: the
loop terminates on it (only `KeyboardInterrupt` is caught), no later cycle
runs, and no further episode is recorded. -/
theorem c5_amended_dispatch_failure (cfg : AlarmConfig) (st : AlarmState)
    (rates : List DeviceSample) (e : ℚ)
    (hch : device_changed st.device_names rates = false)
    (htrig : idle_gpus cfg.duration
        (update_timers cfg.threshold (pyRound e) st.idle_durations rates) ≠ []) :
    (poll_cycle cfg st ⟨some rates, e, false⟩).1 =
      .error (.dispatchFailure,
        ⟨clear_triggered (update_timers cfg.threshold (pyRound e) st.idle_durations rates)
            (idle_gpus cfg.duration (update_timers cfg.threshold (pyRound e) st.idle_durations rates)),
          st.device_names⟩) ∧
    (∀ i ∈ idle_gpus cfg.duration (update_timers cfg.threshold (pyRound e) st.idle_durations rates),
      (clear_triggered (update_timers cfg.threshold (pyRound e) st.idle_durations rates)
          (idle_gpus cfg.duration (update_timers cfg.threshold (pyRound e) st.idle_durations rates))).getD i 0 = 0) ∧
    ∀ rest : List CycleInput,
      (run_cycles cfg st (⟨some rates, e, false⟩ :: rest)).1 =
        ⟨clear_triggered (update_timers cfg.threshold (pyRound e) st.idle_durations rates)
            (idle_gpus cfg.duration (update_timers cfg.threshold (pyRound e) st.idle_durations rates)),
          st.device_names⟩ ∧
      (run_cycles cfg st (⟨some rates, e, false⟩ :: rest)).2.1 = [] := by
  set idle1 := update_timers cfg.threshold (pyRound e) st.idle_durations rates with hidle1
  set trig := idle_gpus cfg.duration idle1 with htrig1
  have hb : ∀ j ∈ trig, j < idle1.length := by
    intro j hj
    obtain ⟨h, _⟩ := (mem_idle_gpus cfg.duration idle1 j).mp hj
    exact h
  have hfst : (poll_cycle cfg st ⟨some rates, e, false⟩).1 =
      .error (.dispatchFailure, ⟨clear_triggered idle1 trig, st.device_names⟩) := by
    rw [poll_cycle_unchanged cfg st rates e false hch]
    have hemp : trig.isEmpty = false := by
      cases htrigl : trig with
      | nil => exact absurd htrigl htrig
      | cons a l => rfl
    simp only [← htrig1, ← hidle1, hemp]
    simp
  refine ⟨hfst, ?_, ?_⟩
  · intro i hi
    rw [clear_triggered_getD idle1 trig hb i, if_pos hi]
  · intro rest
    exact run_cycles_cons_error cfg st ⟨some rates, e, false⟩ rest .dispatchFailure
      ⟨clear_triggered idle1 trig, st.device_names⟩ hfst

/-- Witness for the amended C5 at a concrete input. -/
theorem c5_amended_dispatch_failure_witness :
    device_changed ["A"] [DeviceSample.mk 0 "A" 5] = false ∧
    idle_gpus 1 (update_timers 20 (pyRound 10) [50] [DeviceSample.mk 0 "A" 5]) ≠ [] ∧
    ((poll_cycle ⟨1, 20, false, "acct", none⟩ ⟨[50], ["A"]⟩ ⟨some [DeviceSample.mk 0 "A" 5], 10, false⟩).1 =
      .error (.dispatchFailure,
        ⟨clear_triggered (update_timers 20 (pyRound 10) [50] [DeviceSample.mk 0 "A" 5])
            (idle_gpus 1 (update_timers 20 (pyRound 10) [50] [DeviceSample.mk 0 "A" 5])),
          ["A"]⟩) ∧
    (∀ i ∈ idle_gpus 1 (update_timers 20 (pyRound 10) [50] [DeviceSample.mk 0 "A" 5]),
      (clear_triggered (update_timers 20 (pyRound 10) [50] [DeviceSample.mk 0 "A" 5])
          (idle_gpus 1 (update_timers 20 (pyRound 10) [50] [DeviceSample.mk 0 "A" 5]))).getD i 0 = 0) ∧
    ∀ rest : List CycleInput,
      (run_cycles ⟨1, 20, false, "acct", none⟩ ⟨[50], ["A"]⟩ (⟨some [DeviceSample.mk 0 "A" 5], 10, false⟩ :: rest)).1 =
        ⟨clear_triggered (update_timers 20 (pyRound 10) [50] [DeviceSample.mk 0 "A" 5])
            (idle_gpus 1 (update_timers 20 (pyRound 10) [50] [DeviceSample.mk 0 "A" 5])),
          ["A"]⟩ ∧
      (run_cycles ⟨1, 20, false, "acct", none⟩ ⟨[50], ["A"]⟩ (⟨some [DeviceSample.mk 0 "A" 5], 10, false⟩ :: rest)).2.1 = []) :=
  ⟨by decide, by decide,
    c5_amended_dispatch_failure ⟨1, 20, false, "acct", none⟩ ⟨[50], ["A"]⟩
      [DeviceSample.mk 0 "A" 5] 10 (by decide) (by decide)⟩

/-- Claim C7: the spec's worked scenario — interval 10 s, threshold 20 %,
duration 1 min, one device at 5 % across 7 polls — gives idle seconds
10,20,30,40,50 after polls 1-5, a trigger (and reset) at poll 6 when the
accumulated value reaches 60, and 10 with no trigger at poll 7. -/
theorem c7_scenario :
    ((List.range 7).map fun j =>
        (run_cycles ⟨1, 20, false, "acct", none⟩ (reset_history [DeviceSample.mk 0 "A" 5])
          (List.replicate (j + 1) ⟨some [DeviceSample.mk 0 "A" 5], 10, true⟩)).1.idle_durations)
      = [[10], [20], [30], [40], [50], [0], [10]] ∧
    (run_cycles ⟨1, 20, false, "acct", none⟩ (reset_history [DeviceSample.mk 0 "A" 5])
        (List.replicate 7 ⟨some [DeviceSample.mk 0 "A" 5], 10, true⟩)).2.1
      = [[], [], [], [], [], [0], []] ∧
    update_timers 20 (pyRound 10)
        ((run_cycles ⟨1, 20, false, "acct", none⟩ (reset_history [DeviceSample.mk 0 "A" 5])
          (List.replicate 5 ⟨some [DeviceSample.mk 0 "A" 5], 10, true⟩)).1.idle_durations)
        [DeviceSample.mk 0 "A" 5] = [60] := by
  decide


theorem poll_cycle_core_eq (cfg1 cfg2 : AlarmConfig)
    (hdur : cfg1.duration = cfg2.duration) (hth : cfg1.threshold = cfg2.threshold)
    (st : AlarmState) (inp : CycleInput) :
    (poll_cycle cfg1 st inp).1 = (poll_cycle cfg2 st inp).1 := by
  rcases inp with ⟨rates, e, dOk⟩
  cases rates with
  | none => rfl
  | some rates =>
    by_cases hch : device_changed st.device_names rates = true
    · rw [poll_cycle_changed cfg1 st rates e dOk hch, poll_cycle_changed cfg2 st rates e dOk hch]
    · rw [poll_cycle_unchanged cfg1 st rates e dOk (by simpa using hch),
        poll_cycle_unchanged cfg2 st rates e dOk (by simpa using hch), hdur, hth]

theorem run_cycles_core_eq (cfg1 cfg2 : AlarmConfig)
    (hdur : cfg1.duration = cfg2.duration) (hth : cfg1.threshold = cfg2.threshold) :
    ∀ (inputs : List CycleInput) (st : AlarmState),
      (run_cycles cfg1 st inputs).1 = (run_cycles cfg2 st inputs).1 ∧
      (run_cycles cfg1 st inputs).2.1 = (run_cycles cfg2 st inputs).2.1 := by
  intro inputs
  induction inputs with
  | nil => exact fun st => ⟨rfl, rfl⟩
  | cons inp rest ih =>
    intro st
    have hfst := poll_cycle_core_eq cfg1 cfg2 hdur hth st inp
    rcases h1 : poll_cycle cfg1 st inp with ⟨res1, evs1⟩
    rcases h2 : poll_cycle cfg2 st inp with ⟨res2, evs2⟩
    rw [h1, h2] at hfst
    simp only at hfst
    subst hfst
    cases res1 with
    | ok p =>
      rcases p with ⟨st', ep⟩
      simp only [run_cycles, h1, h2]
      exact ⟨(ih st').1, by rw [(ih st').2]⟩
    | error p =>
      rcases p with ⟨ex, st'⟩
      simp [run_cycles, h1, h2]

theorem poll_cycle_quiet_silent (cfg : AlarmConfig) (hq : cfg.quiet = true)
    (st : AlarmState) (inp : CycleInput) :
    (poll_cycle cfg st inp).2 = [] := by
  rcases inp with ⟨rates, e, dOk⟩
  cases rates with
  | none => rfl
  | some rates =>
    simp only [poll_cycle, verbose, hq, if_true]
    split
    · rfl
    · split
      · rfl
      · split <;> rfl

theorem run_cycles_quiet_silent (cfg : AlarmConfig) (hq : cfg.quiet = true) :
    ∀ (inputs : List CycleInput) (st : AlarmState),
      (run_cycles cfg st inputs).2.2 = [] := by
  intro inputs
  induction inputs with
  | nil => exact fun st => rfl
  | cons inp rest ih =>
    intro st
    have hev := poll_cycle_quiet_silent cfg hq st inp
    rcases h1 : poll_cycle cfg st inp with ⟨res, evs⟩
    rw [h1] at hev
    simp only at hev
    subst hev
    cases res with
    | ok p =>
      rcases p with ⟨st', ep⟩
      simp only [run_cycles, h1]
      simpa using ih st'
    | error p =>
      rcases p with ⟨ex, st'⟩
      simp only [run_cycles, h1]

/-- Claim C9: runs that differ only in the quiet flag have identical state
evolution, identical topology-reset decisions and triggered episodes, and
identical termination behaviour; with quiet on, no informational output is
produced at all — quiet never reaches the alerting logic. -/
theorem c9_quiet_is_logging_only (cfg : AlarmConfig) (q1 q2 : Bool)
    (st : AlarmState) (inputs : List CycleInput) :
    (run_cycles { cfg with quiet := q1 } st inputs).1 =
      (run_cycles { cfg with quiet := q2 } st inputs).1 ∧
    (run_cycles { cfg with quiet := q1 } st inputs).2.1 =
      (run_cycles { cfg with quiet := q2 } st inputs).2.1 ∧
    (run_cycles { cfg with quiet := true } st inputs).2.2 = [] := by
  refine ⟨?_, ?_, run_cycles_quiet_silent { cfg with quiet := true } rfl inputs st⟩
  · exact (run_cycles_core_eq { cfg with quiet := q1 } { cfg with quiet := q2 } rfl rfl inputs st).1
  · exact (run_cycles_core_eq { cfg with quiet := q1 } { cfg with quiet := q2 } rfl rfl inputs st).2


theorem sentLine_mem_poll_cycle (cfg : AlarmConfig) (st : AlarmState) (inp : CycleInput)
    (r : String) (hmem : LogEvent.sentLine r ∈ (poll_cycle cfg st inp).2) :
    r = effective_to cfg := by
  rcases inp with ⟨rates, e, dOk⟩
  cases rates with
  | none => simp [poll_cycle] at hmem
  | some rates =>
    by_cases hq : cfg.quiet = true
    · rw [poll_cycle_quiet_silent cfg hq st ⟨some rates, e, dOk⟩] at hmem
      simp at hmem
    · have hq' : cfg.quiet = false := by
        cases hcq : cfg.quiet
        · rfl
        · exact absurd hcq hq
      simp only [poll_cycle, verbose, hq', Bool.false_eq_true, if_false] at hmem
      split at hmem
      · simp [print_summary] at hmem
      · split at hmem
        · simp [print_summary] at hmem
        · split at hmem
          · simp [print_summary] at hmem
            tauto
          · simp [print_summary] at hmem

theorem sentLine_mem_run_cycles (cfg : AlarmConfig) :
    ∀ (inputs : List CycleInput) (st : AlarmState) (r : String),
      LogEvent.sentLine r ∈ (run_cycles cfg st inputs).2.2 → r = effective_to cfg := by
  intro inputs
  induction inputs with
  | nil => intro st r h; simp [run_cycles] at h
  | cons inp rest ih =>
    intro st r h
    rcases h1 : poll_cycle cfg st inp with ⟨res, evs⟩
    cases res with
    | ok p =>
      rcases p with ⟨st', ep⟩
      simp only [run_cycles, h1, List.mem_append] at h
      rcases h with h | h
      · have := sentLine_mem_poll_cycle cfg st inp r (by rw [h1]; exact h)
        exact this
      · exact ih st' r h
    | error p =>
      rcases p with ⟨ex, st'⟩
      simp only [run_cycles, h1] at h
      exact sentLine_mem_poll_cycle cfg st inp r (by rw [h1]; exact h)

/-- Claim C10: when the loaded configuration's `to` entry is absent or
falsy (empty), the notification destination defaults to the SMTP account
address itself, and every alert email sent in the run is addressed to the
account. -/
theorem c10_default_recipient (cfg : AlarmConfig)
    (h : cfg.toAddr = none ∨ cfg.toAddr = some "") :
    effective_to cfg = cfg.account ∧
    ∀ (st : AlarmState) (inputs : List CycleInput) (r : String),
      LogEvent.sentLine r ∈ (run_cycles cfg st inputs).2.2 → r = cfg.account := by
  have heff : effective_to cfg = cfg.account := by
    rcases h with h | h <;> simp [effective_to, h]
  refine ⟨heff, ?_⟩
  intro st inputs r hmem
  rw [← heff]
  exact sentLine_mem_run_cycles cfg inputs st r hmem

/-- Witness for C10 at a concrete input: config with no `to` entry. -/
theorem c10_default_recipient_witness :
    ((⟨30, 20, false, "me@example.com", none⟩ : AlarmConfig).toAddr = none ∨
      (⟨30, 20, false, "me@example.com", none⟩ : AlarmConfig).toAddr = some "") ∧
    (effective_to ⟨30, 20, false, "me@example.com", none⟩ = "me@example.com" ∧
      ∀ (st : AlarmState) (inputs : List CycleInput) (r : String),
        LogEvent.sentLine r ∈ (run_cycles ⟨30, 20, false, "me@example.com", none⟩ st inputs).2.2 →
          r = "me@example.com") :=
  ⟨Or.inl rfl, c10_default_recipient ⟨30, 20, false, "me@example.com", none⟩ (Or.inl rfl)⟩


theorem poll_cycle_single (cfg : AlarmConfig) (idx : ℤ) (nm : String) (util s : ℤ) (e : ℚ) :
    (poll_cycle cfg ⟨[s], [nm]⟩ ⟨some [⟨idx, nm, util⟩], e, true⟩).1 =
      .ok (⟨[(step1 cfg.threshold cfg.duration util (pyRound e) s).1], [nm]⟩,
        if (step1 cfg.threshold cfg.duration util (pyRound e) s).2 then [0] else []) := by
  have hch : device_changed [nm] [⟨idx, nm, util⟩] = false := by
    simp [device_changed]
  rw [poll_cycle_unchanged cfg ⟨[s], [nm]⟩ [⟨idx, nm, util⟩] e true hch]
  have hup : update_timers cfg.threshold (pyRound e) [s] [⟨idx, nm, util⟩] =
      [if cfg.threshold ≤ util then 0 else s + pyRound e] := by
    by_cases hc : cfg.threshold ≤ util <;>
      simp [update_timers, List.enum, List.enumFrom, hc]
  have hig : ∀ x : ℤ, idle_gpus cfg.duration [x] =
      if cfg.duration * 60 ≤ x then [0] else [] := by
    intro x
    by_cases hx : cfg.duration * 60 ≤ x <;>
      simp [idle_gpus, List.enum, List.enumFrom, hx]
  simp only [hup, hig]
  unfold step1
  by_cases ht : cfg.duration * 60 ≤ (if cfg.threshold ≤ util then 0 else s + pyRound e) <;>
    simp [ht, clear_triggered]

theorem run_cycles_single (cfg : AlarmConfig) (idx : ℤ) (nm : String) (util : ℤ) :
    ∀ (es : List ℚ) (s : ℤ),
      (run_cycles cfg ⟨[s], [nm]⟩ (es.map fun e => ⟨some [⟨idx, nm, util⟩], e, true⟩)).2.1 =
        (run1 cfg.threshold cfg.duration util s (es.map pyRound)).2.map
          (fun b => if b then [0] else []) ∧
      (run_cycles cfg ⟨[s], [nm]⟩ (es.map fun e => ⟨some [⟨idx, nm, util⟩], e, true⟩)).1 =
        ⟨[(run1 cfg.threshold cfg.duration util s (es.map pyRound)).1], [nm]⟩ := by
  intro es
  induction es with
  | nil => exact fun s => ⟨rfl, rfl⟩
  | cons e es ih =>
    intro s
    have hpc := poll_cycle_single cfg idx nm util s e
    rcases h1 : poll_cycle cfg ⟨[s], [nm]⟩ ⟨some [⟨idx, nm, util⟩], e, true⟩ with ⟨res, evs⟩
    rw [h1] at hpc
    simp only at hpc
    subst hpc
    have hstep := ih (step1 cfg.threshold cfg.duration util (pyRound e) s).1
    constructor
    · simp only [List.map_cons, run_cycles, h1, run1]
      rw [hstep.1]
    · simp only [List.map_cons, run_cycles, h1, run1]
      rw [hstep.2]

theorem run1_append (θ dur util : ℤ) :
    ∀ (rs1 rs2 : List ℤ) (s : ℤ),
      run1 θ dur util s (rs1 ++ rs2) =
        ((run1 θ dur util (run1 θ dur util s rs1).1 rs2).1,
          (run1 θ dur util s rs1).2 ++ (run1 θ dur util (run1 θ dur util s rs1).1 rs2).2) := by
  intro rs1
  induction rs1 with
  | nil => intro rs2 s; rfl
  | cons r rs1 ih =>
    intro rs2 s
    simp only [List.cons_append, run1, List.append_eq]
    rw [ih rs2 (step1 θ dur util r s).1]

theorem run1_flags_length (θ dur util : ℤ) :
    ∀ (rs : List ℤ) (s : ℤ), (run1 θ dur util s rs).2.length = rs.length := by
  intro rs
  induction rs with
  | nil => intro s; rfl
  | cons r rs ih => intro s; simp [run1, ih]

theorem run1_nonneg_bound (θ dur util : ℤ) (hu : util < θ) :
    ∀ (rs : List ℤ) (s : ℤ), (∀ r ∈ rs, 0 ≤ r) → 0 ≤ s →
      0 ≤ (run1 θ dur util s rs).1 ∧ (run1 θ dur util s rs).1 ≤ s + rs.sum := by
  intro rs
  induction rs with
  | nil => intro s _ hs; exact ⟨hs, by simp [run1]⟩
  | cons r rs ih =>
    intro s hnn hs
    have hr : 0 ≤ r := hnn r (List.mem_cons_self r rs)
    have hnn' : ∀ x ∈ rs, 0 ≤ x := fun x hx => hnn x (List.mem_cons_of_mem r hx)
    have hs1 : (0:ℤ) ≤ s + r := by linarith
    have hstep : 0 ≤ (step1 θ dur util r s).1 ∧ (step1 θ dur util r s).1 ≤ s + r := by
      unfold step1
      rw [if_neg (not_le.mpr hu)]
      by_cases ht : dur * 60 ≤ s + r <;> simp [ht, hs1]
    have := ih (step1 θ dur util r s).1 hnn' hstep.1
    refine ⟨?_, ?_⟩
    · simpa [run1] using this.1
    · have h2 := this.2
      simp only [run1, List.sum_cons]
      have := hstep.2
      linarith

theorem run1_flag_sum (θ dur util : ℤ) (hu : util < θ) :
    ∀ (rs : List ℤ) (s : ℤ) (t : ℕ), (∀ r ∈ rs, 0 ≤ r) → 0 ≤ s →
      (run1 θ dur util s rs).2.getD t false = true →
      dur * 60 ≤ s + (rs.take (t + 1)).sum := by
  intro rs
  induction rs with
  | nil => intro s t _ _ h; simp [run1] at h
  | cons r rs ih =>
    intro s t hnn hs h
    have hr : 0 ≤ r := hnn r (List.mem_cons_self r rs)
    have hnn' : ∀ x ∈ rs, 0 ≤ x := fun x hx => hnn x (List.mem_cons_of_mem r hx)
    have hs1 : (0:ℤ) ≤ s + r := by linarith
    match t with
    | 0 =>
      simp only [run1, List.getD_cons_zero] at h
      have hflag : (step1 θ dur util r s).2 = true := h
      have : dur * 60 ≤ s + r := by
        by_contra hc
        unfold step1 at hflag
        rw [if_neg (not_le.mpr hu), if_neg hc] at hflag
        simp at hflag
      simpa only [List.take_succ_cons, List.take_zero, List.sum_cons, List.sum_nil,
        add_zero] using this
    | t + 1 =>
      simp only [run1, List.getD_cons_succ] at h
      have hstep : 0 ≤ (step1 θ dur util r s).1 ∧ (step1 θ dur util r s).1 ≤ s + r := by
        unfold step1
        rw [if_neg (not_le.mpr hu)]
        by_cases ht : dur * 60 ≤ s + r <;> simp [ht, hs1]
      have := ih (step1 θ dur util r s).1 t hnn' hstep.1 h
      have hb := hstep.2
      simp only [List.take_succ_cons, List.sum_cons]
      linarith

theorem run1_flag_reset (θ dur util : ℤ) :
    ∀ (rs : List ℤ) (s : ℤ) (t : ℕ),
      (run1 θ dur util s rs).2.getD t false = true →
      t < rs.length ∧ (run1 θ dur util s (rs.take (t + 1))).1 = 0 := by
  intro rs
  induction rs with
  | nil => intro s t h; simp [run1] at h
  | cons r rs ih =>
    intro s t h
    match t with
    | 0 =>
      simp only [run1, List.getD_cons_zero] at h
      have hflag : (step1 θ dur util r s).2 = true := h
      have hzero : (step1 θ dur util r s).1 = 0 := by
        unfold step1 at hflag ⊢
        by_cases ht : dur * 60 ≤ (if θ ≤ util then 0 else s + r)
        · simp [ht]
        · rw [if_neg ht] at hflag
          simp at hflag
      refine ⟨by simp, ?_⟩
      simp [run1, hzero]
    | t + 1 =>
      simp only [run1, List.getD_cons_succ] at h
      obtain ⟨hlt, hz⟩ := ih (step1 θ dur util r s).1 t h
      refine ⟨by simpa using Nat.succ_lt_succ hlt, ?_⟩
      simp only [List.take_succ_cons, run1]
      exact hz


theorem run1_window (θ dur util : ℤ) (hu : util < θ) (rs : List ℤ)
    (hnn : ∀ r ∈ rs, 0 ≤ r) (k m : ℕ) (hkm : k < m)
    (hk : (run1 θ dur util 0 rs).2.getD k false = true)
    (hm : (run1 θ dur util 0 rs).2.getD m false = true) :
    dur * 60 ≤ ((rs.drop (k + 1)).take (m - k)).sum := by
  obtain ⟨hkl, hreset⟩ := run1_flag_reset θ dur util rs 0 k hk
  have hsplit : rs = rs.take (k + 1) ++ rs.drop (k + 1) :=
    (List.take_append_drop (k + 1) rs).symm
  have hflags : (run1 θ dur util 0 rs).2 =
      (run1 θ dur util 0 (rs.take (k + 1))).2 ++
        (run1 θ dur util 0 (rs.drop (k + 1))).2 := by
    conv_lhs => rw [hsplit]
    rw [run1_append θ dur util (rs.take (k + 1)) (rs.drop (k + 1)) 0, hreset]
  have hlen1 : (run1 θ dur util 0 (rs.take (k + 1))).2.length = k + 1 := by
    rw [run1_flags_length, List.length_take]
    omega
  have hm2 : (run1 θ dur util 0 (rs.drop (k + 1))).2.getD (m - (k + 1)) false = true := by
    rw [hflags, List.getD_append_right _ _ _ _ (by rw [hlen1]; omega)] at hm
    rwa [hlen1] at hm
  have hnn2 : ∀ r ∈ rs.drop (k + 1), 0 ≤ r := fun r hr => hnn r (List.drop_subset _ _ hr)
  have hsum := run1_flag_sum θ dur util hu (rs.drop (k + 1)) 0 (m - (k + 1)) hnn2 le_rfl hm2
  have harith : m - (k + 1) + 1 = m - k := by omega
  rw [harith] at hsum
  simpa using hsum

theorem flag_of_eps (flags : List Bool) (k : ℕ)
    (h : (flags.map fun b => if b then ([0] : List ℕ) else []).getD k [] ≠ []) :
    flags.getD k false = true := by
  by_cases hk : k < flags.length
  · have hmap : (flags.map fun b => if b then ([0] : List ℕ) else []).getD k [] =
        if flags.getD k false then [0] else [] := by
      rw [List.getD_eq_getElem _ _ (by simpa using hk), List.getElem_map,
        List.getD_eq_getElem _ _ hk]
    rw [hmap] at h
    cases hb : flags.getD k false with
    | false => rw [hb] at h; simp at h
    | true => rfl
  · exfalso
    apply h
    rw [List.getD_eq_default]
    simpa using Nat.le_of_not_lt hk

/-- Claim C4: in a run over a single device with stable topology that stays
below the utilization threshold in every cycle, any two cycles that both
produce an alert episode are separated by at least a threshold-length idle
window: the rounded elapsed time accumulated strictly between them sums to
at least duration*60 seconds.  In particular alerts never repeat once per
cycle after the first crossing, because triggered timers restart from 0. -/
theorem c4_one_alert_per_idle_window (cfg : AlarmConfig) (idx : ℤ) (nm : String)
    (util : ℤ) (es : List ℚ) (k m : ℕ)
    (hu : util < cfg.threshold)
    (hnn : ∀ e ∈ es, 0 ≤ pyRound e)
    (hkm : k < m)
    (hk : (run_cycles cfg (reset_history [⟨idx, nm, util⟩])
        (es.map fun e => ⟨some [⟨idx, nm, util⟩], e, true⟩)).2.1.getD k [] ≠ [])
    (hm : (run_cycles cfg (reset_history [⟨idx, nm, util⟩])
        (es.map fun e => ⟨some [⟨idx, nm, util⟩], e, true⟩)).2.1.getD m [] ≠ []) :
    cfg.duration * 60 ≤ (((es.map pyRound).drop (k + 1)).take (m - k)).sum := by
  have hrh : reset_history [(⟨idx, nm, util⟩ : DeviceSample)] =
      (⟨[0], [nm]⟩ : AlarmState) := rfl
  rw [hrh] at hk hm
  rw [(run_cycles_single cfg idx nm util es 0).1] at hk hm
  have hflagk := flag_of_eps _ k hk
  have hflagm := flag_of_eps _ m hm
  have hnn' : ∀ r ∈ es.map pyRound, 0 ≤ r := by
    intro r hr
    obtain ⟨e, he, rfl⟩ := List.mem_map.mp hr
    exact hnn e he
  exact run1_window cfg.threshold cfg.duration util hu (es.map pyRound) hnn' k m hkm
    hflagk hflagm

/-- Witness for C4 at a concrete input: duration 1 min, 30 s elapsed per
poll, triggers at cycles 1 and 3; the window between them sums to 60 s. -/
theorem c4_one_alert_per_idle_window_witness :
    (5:ℤ) < (⟨1, 20, false, "acct", none⟩ : AlarmConfig).threshold ∧
    (∀ e ∈ ([30, 30, 30, 30] : List ℚ), 0 ≤ pyRound e) ∧
    (1:ℕ) < 3 ∧
    (run_cycles ⟨1, 20, false, "acct", none⟩ (reset_history [⟨0, "A", 5⟩])
        (([30, 30, 30, 30] : List ℚ).map fun e => ⟨some [⟨0, "A", 5⟩], e, true⟩)).2.1.getD 1 [] ≠ [] ∧
    (run_cycles ⟨1, 20, false, "acct", none⟩ (reset_history [⟨0, "A", 5⟩])
        (([30, 30, 30, 30] : List ℚ).map fun e => ⟨some [⟨0, "A", 5⟩], e, true⟩)).2.1.getD 3 [] ≠ [] ∧
    (⟨1, 20, false, "acct", none⟩ : AlarmConfig).duration * 60 ≤
      (((([30, 30, 30, 30] : List ℚ).map pyRound).drop (1 + 1)).take (3 - 1)).sum :=
  ⟨by decide, by decide, by decide, by decide, by decide,
    c4_one_alert_per_idle_window ⟨1, 20, false, "acct", none⟩ 0 "A" 5
      [30, 30, 30, 30] 1 3 (by decide) (by decide) (by decide) (by decide) (by decide)⟩

end GpuIdleAlarm
